import Mathlib

/-!
# Formal model of the fuzzy lighting control system (src/HW2_fuzzy.py)

The repository builds a Mamdani fuzzy inference engine from the `skfuzzy`
library: triangular membership functions (`fuzz.trimf`), a rule base of
fourteen rules combining two antecedent variables, max-aggregation of the
clipped consequents and centroid defuzzification.  The repository's own
code supplies the configuration, the membership-function control points,
the rule base, the input clamping (`_validate_input`) and the
`compute_light_intensity` wrapper; the inference algorithm itself lives in
the external `skfuzzy` package, whose code is not part of the repository,
so those parts are modelled here from the specification's description
(each such definition says so in its doc comment).

All arithmetic is over `ℚ`: the Python code works in floating point, but
every quantity involved (control points, sample points, degrees) is a
small rational and every operation used (min, max, +, *, /) is exact on
the values reached here, so `ℚ` is the faithful idealisation.
-/

namespace HW2Fuzzy

/-- Modelled from the spec: the triangular membership degree of §4.1
(`skfuzzy.trimf` / `interp_membership` are not in the repository).
For control points `(a, b, c)` the degree is `(x-a)/(b-a)` on `a < x ≤ b`,
`(c-x)/(c-b)` on `b < x < c` and `0` outside `[a, c]`; following §4.1's
degenerate clauses ("define as 1 if a == b" / "if b == c") and §8
("degree(a)=0 unless a=b, then =1"), the degree at the peak `x = b` is `1`
also when `a = b` or `b = c`. -/
def triDegree (a b c x : ℚ) : ℚ :=
  if a < x ∧ x ≤ b then (x - a) / (b - a)
  else if a = b ∧ x = b then 1
  else if b < x ∧ x < c then (c - x) / (c - b)
  else 0

/-- The piecewise definition exactly as claim C1 words it: `0` if
`x ≤ a` or `x ≥ c`, `(x-a)/(b-a)` if `a < x ≤ b`, `(c-x)/(c-b)` if
`b < x < c`, with the degenerate clauses ("defined as 1 when `a = b`",
"defined as 1 when `b = c`") taking effect at the peak `x = b`. -/
def claimPiecewiseDegree (a b c x : ℚ) : ℚ :=
  if a = b ∧ x = b then 1
  else if b = c ∧ x = b then 1
  else if x ≤ a ∨ c ≤ x then 0
  else if a < x ∧ x ≤ b then (x - a) / (b - a)
  else (c - x) / (c - b)

theorem triDegree_nonneg (a b c x : ℚ) : 0 ≤ triDegree a b c x := by
  unfold triDegree
  split_ifs with h1 h2 h3
  · have hab : a < b := lt_of_lt_of_le h1.1 h1.2
    exact le_of_lt (div_pos (by linarith [h1.1]) (by linarith))
  · norm_num
  · have hbc : b < c := lt_trans h3.1 h3.2
    exact le_of_lt (div_pos (by linarith [h3.2]) (by linarith))
  · exact le_refl 0

theorem triDegree_le_one (a b c x : ℚ) : triDegree a b c x ≤ 1 := by
  unfold triDegree
  split_ifs with h1 h2 h3
  · have hab : a < b := lt_of_lt_of_le h1.1 h1.2
    rw [div_le_one (by linarith)]
    linarith [h1.2]
  · exact le_refl 1
  · have hbc : b < c := lt_trans h3.1 h3.2
    rw [div_le_one (by linarith)]
    linarith [h3.1]
  · norm_num

/-- Brightness labels, from `src/HW2_fuzzy.py` lines 31–34. -/
inductive BrightnessLabel
  | dark
  | dim
  | bright
  | very_bright
deriving DecidableEq

/-- Time-of-day labels, from `src/HW2_fuzzy.py` lines 36–39. -/
inductive TimeLabel
  | night
  | morning
  | afternoon
  | evening
deriving DecidableEq

/-- Output (light-intensity) labels, from `src/HW2_fuzzy.py` lines 41–45. -/
inductive IntensityLabel
  | very_low
  | low
  | medium
  | high
  | very_high
deriving DecidableEq

/-- Membership functions of the brightness variable: the `trimf` control
points of `src/HW2_fuzzy.py` lines 31–34 (`dark=[0,0,30]`, `dim=[20,50,80]`,
`bright=[60,90,100]`, `very_bright=[90,120,120]`). -/
def bMF : BrightnessLabel → ℚ → ℚ
  | .dark => triDegree 0 0 30
  | .dim => triDegree 20 50 80
  | .bright => triDegree 60 90 100
  | .very_bright => triDegree 90 120 120

/-- Membership functions of the time-of-day variable
(`src/HW2_fuzzy.py` lines 36–39). -/
def tMF : TimeLabel → ℚ → ℚ
  | .night => triDegree 0 3 6
  | .morning => triDegree 5 9 12
  | .afternoon => triDegree 11 15 18
  | .evening => triDegree 17 21 24

/-- Membership functions of the light-intensity variable
(`src/HW2_fuzzy.py` lines 41–45). -/
def oMF : IntensityLabel → ℚ → ℚ
  | .very_low => triDegree 0 0 25
  | .low => triDegree 15 35 55
  | .medium => triDegree 45 60 75
  | .high => triDegree 65 85 100
  | .very_high => triDegree 90 100 100

/-- A rule of the rule base: a conjunction of a brightness label test and
an optional time-of-day label test, and a consequent intensity label
(every rule of `src/HW2_fuzzy.py` lines 51–66 has this shape: rule4 and
rule14 test brightness alone). -/
structure FRule where
  br : BrightnessLabel
  tod : Option TimeLabel
  out : IntensityLabel
deriving DecidableEq

def rule1 : FRule := ⟨.dark, some .night, .very_high⟩
def rule2 : FRule := ⟨.dark, some .morning, .high⟩
def rule3 : FRule := ⟨.dim, some .afternoon, .medium⟩
def rule4 : FRule := ⟨.bright, none, .low⟩
def rule5 : FRule := ⟨.dark, some .evening, .very_high⟩
def rule6 : FRule := ⟨.dim, some .night, .high⟩
def rule7 : FRule := ⟨.dim, some .morning, .medium⟩
def rule8 : FRule := ⟨.bright, some .afternoon, .very_low⟩
def rule9 : FRule := ⟨.bright, some .evening, .very_low⟩
def rule10 : FRule := ⟨.dim, some .evening, .high⟩
def rule11 : FRule := ⟨.dark, some .afternoon, .medium⟩
def rule12 : FRule := ⟨.bright, some .night, .low⟩
def rule13 : FRule := ⟨.bright, some .morning, .very_low⟩
def rule14 : FRule := ⟨.very_bright, none, .very_low⟩

/-- The rule base of `src/HW2_fuzzy.py` line 69. -/
def rules : List FRule :=
  [rule1, rule2, rule3, rule4, rule5, rule6, rule7, rule8, rule9, rule10,
   rule11, rule12, rule13, rule14]

/-- The membership degrees of the `(variable, label)` pairs named in a
rule's antecedent, at crisp inputs `b` (brightness) and `t` (time of day). -/
def antecedentDegrees (r : FRule) (b t : ℚ) : List ℚ :=
  bMF r.br b :: (match r.tod with
    | none => []
    | some tl => [tMF tl t])

/-- Modelled from the spec: a rule's firing strength is the minimum of its
antecedent degrees (§4.3 step 3, fuzzy-AND = min; the `skfuzzy` rule
evaluation is not in the repository). -/
def fireStrength (r : FRule) (b t : ℚ) : ℚ :=
  (antecedentDegrees r b t).foldr min 1

theorem fireStrength_eq_min (r : FRule) (b t : ℚ) :
    fireStrength r b t =
      match r.tod with
      | none => bMF r.br b
      | some tl => min (bMF r.br b) (tMF tl t) := by
  obtain ⟨br, tod, out⟩ := r
  cases tod with
  | none =>
    show min (bMF br b) 1 = bMF br b
    exact min_eq_left (by cases br <;> exact triDegree_le_one _ _ _ _)
  | some tl =>
    show min (bMF br b) (min (tMF tl t) 1) = min (bMF br b) (tMF tl t)
    rw [min_eq_left (show tMF tl t ≤ 1 by cases tl <;> exact triDegree_le_one _ _ _ _)]

theorem fireStrength_nonneg (r : FRule) (b t : ℚ) : 0 ≤ fireStrength r b t := by
  rw [fireStrength_eq_min]
  obtain ⟨br, tod, out⟩ := r
  cases tod with
  | none => cases br <;> exact triDegree_nonneg _ _ _ _
  | some tl =>
    exact le_min (by cases br <;> exact triDegree_nonneg _ _ _ _)
      (by cases tl <;> exact triDegree_nonneg _ _ _ _)

/-- Modelled from the spec: the accumulated strength an output label
receives, the maximum of the firing strengths of all rules with that
consequent label (§4.3 steps 4–5; the `skfuzzy` aggregation is not in the
repository). -/
def labelStrength (o : IntensityLabel) (b t : ℚ) : ℚ :=
  ((rules.filter fun r => decide (r.out = o)).map fun r => fireStrength r b t).foldr max 0

/-- The output variable's labels (`src/HW2_fuzzy.py` lines 41–45). -/
def outLabels : List IntensityLabel :=
  [.very_low, .low, .medium, .high, .very_high]

/-- Modelled from the spec: the aggregated output membership at a sample
point, the pointwise maximum over the output labels of the label's
membership clipped at its accumulated strength (§4.3 steps 4–5, Mamdani
min-implication and fuzzy-OR = max). -/
def aggregated (b t x : ℚ) : ℚ :=
  (outLabels.map fun o => min (labelStrength o b t) (oMF o x)).foldr max 0

/-- The output universe `np.arange(0, 100, 1)` of `src/HW2_fuzzy.py`
line 28: the sample points 0, 1, …, 99. -/
def outUniverse : List ℚ :=
  (List.range 100).map (fun n : ℕ => (n : ℚ))

/-- `Σ μ(x_i)` over the output universe. -/
def totalArea (b t : ℚ) : ℚ :=
  (outUniverse.map (aggregated b t)).sum

/-- `Σ x_i · μ(x_i)` over the output universe. -/
def moment (b t : ℚ) : ℚ :=
  (outUniverse.map fun x => x * aggregated b t x).sum

/-- Modelled from the spec: centroid defuzzification (§4.3 step 6),
`Σ(x_i · μ(x_i)) / Σ(μ(x_i))` over the output universe; when
`Σ μ(x_i) = 0` no rule fired and the engine signals `InferenceError`,
modelled as `none` (the `skfuzzy` defuzzifier is not in the repository). -/
def defuzz (b t : ℚ) : Option ℚ :=
  if totalArea b t = 0 then none else some (moment b t / totalArea b t)

/-- The discrete centroid of a single output label's membership function
by itself, over the output universe. -/
def labelCentroid (o : IntensityLabel) : ℚ :=
  (outUniverse.map fun x => x * oMF o x).sum / (outUniverse.map fun x => oMF o x).sum

/-- The configuration dataclass of `src/HW2_fuzzy.py` lines 13–17 with its
default values, as instantiated at line 125. -/
structure LightingConfig where
  brightness_range : ℚ × ℚ
  time_of_day_range : ℚ × ℚ
  light_intensity_range : ℚ × ℚ

def config : LightingConfig :=
  ⟨(0, 120), (0, 24), (0, 100)⟩

/-- One clamping block of `_validate_input` (`src/HW2_fuzzy.py`
lines 89–96: `if x < lo: x = lo elif x > hi: x = hi`); the Bool records
whether the adjustment warning was logged. -/
def clampWithFlag (lo hi x : ℚ) : ℚ × Bool :=
  if x < lo then (lo, true)
  else if hi < x then (hi, true)
  else (x, false)

/-- The outcome of `_validate_input`: the (possibly clamped) crisp inputs
and, for each, whether a warning-level adjustment event was emitted. -/
structure Validated where
  brightness : ℚ
  time_of_day : ℚ
  brightness_adjusted : Bool
  time_adjusted : Bool

/-- `_validate_input` of `src/HW2_fuzzy.py` lines 88–107: each input is
clamped into its configured `[min, max]` range, out-of-range values are
adjusted to the nearest bound with a warning, in-range values pass
unchanged. -/
def validate_input (brightness time_of_day : ℚ) : Validated :=
  ⟨(clampWithFlag config.brightness_range.1 config.brightness_range.2 brightness).1,
   (clampWithFlag config.time_of_day_range.1 config.time_of_day_range.2 time_of_day).1,
   (clampWithFlag config.brightness_range.1 config.brightness_range.2 brightness).2,
   (clampWithFlag config.time_of_day_range.1 config.time_of_day_range.2 time_of_day).2⟩

/-- `compute_light_intensity` of `src/HW2_fuzzy.py` lines 72–86: validate
(clamp) the inputs, run the fuzzy inference, and return the crisp
intensity; the `try/except` that logs any error and returns `None` is
modelled by the `Option` result (`none` = no crisp value). -/
def compute_light_intensity (brightness_value time_of_day_value : ℚ) : Option ℚ :=
  let v := validate_input brightness_value time_of_day_value
  defuzz v.brightness v.time_of_day

/-- The mutable state the source threads through calls: the
`ControlSystemSimulation` object stores the last-set crisp inputs
(`src/HW2_fuzzy.py` lines 70, 76–77). -/
structure SimState where
  brightness_in : Option ℚ
  time_in : Option ℚ

/-- `compute_light_intensity` with the simulation state made explicit:
both inputs are (re)assigned before each `compute()` call, so the produced
state holds exactly the clamped inputs of this call. -/
def computeWithState (s : SimState) (bv tv : ℚ) : Option ℚ × SimState :=
  let v := validate_input bv tv
  (defuzz v.brightness v.time_of_day, ⟨some v.brightness, some v.time_of_day⟩)

theorem foldr_max_nonneg (l : List ℚ) : 0 ≤ l.foldr max 0 := by
  induction l with
  | nil => exact le_refl 0
  | cons a l ih => exact le_trans ih (le_max_right a _)

theorem le_foldr_max (l : List ℚ) (a : ℚ) (h : a ∈ l) : a ≤ l.foldr max 0 := by
  induction l with
  | nil => cases h
  | cons x l ih =>
    rcases List.mem_cons.mp h with rfl | h2
    · exact le_max_left _ _
    · exact le_trans (ih h2) (le_max_right _ _)

theorem min_foldr_max (l : List ℚ) (m : ℚ) (hm : 0 ≤ m) :
    min (l.foldr max 0) m = (l.map fun s => min s m).foldr max 0 := by
  induction l with
  | nil => simpa using hm
  | cons a l ih =>
    simp only [List.foldr_cons, List.map_cons]
    rw [min_max_distrib_right, ih]

theorem foldr_max_append (l1 l2 : List ℚ) :
    (l1 ++ l2).foldr max 0 = max (l1.foldr max 0) (l2.foldr max 0) := by
  induction l1 with
  | nil => simp [max_eq_right (foldr_max_nonneg l2)]
  | cons a l ih =>
    simp only [List.cons_append, List.foldr_cons, ih, max_assoc]

theorem aggregated_nonneg (b t x : ℚ) : 0 ≤ aggregated b t x :=
  foldr_max_nonneg _

theorem foldr_max_le (l : List ℚ) (z : ℚ) (hz : 0 ≤ z) (h : ∀ a ∈ l, a ≤ z) :
    l.foldr max 0 ≤ z := by
  induction l with
  | nil => exact hz
  | cons a l ih =>
    exact max_le (h a (List.mem_cons_self a l))
      (ih fun x hx => h x (List.mem_cons_of_mem a hx))

theorem oMF_nonneg (o : IntensityLabel) (x : ℚ) : 0 ≤ oMF o x := by
  cases o <;> exact triDegree_nonneg _ _ _ _

theorem mem_outLabels (o : IntensityLabel) : o ∈ outLabels := by
  cases o <;> simp [outLabels]

theorem fireStrength_le_labelStrength (r : FRule) (hr : r ∈ rules) (b t : ℚ) :
    fireStrength r b t ≤ labelStrength r.out b t := by
  refine le_foldr_max _ _ ?_
  exact List.mem_map.mpr ⟨r, List.mem_filter.mpr ⟨hr, by simp⟩, rfl⟩

theorem labelStrength_nonneg (o : IntensityLabel) (b t : ℚ) :
    0 ≤ labelStrength o b t :=
  foldr_max_nonneg _

/-- The aggregated output equals the pointwise maximum, over all rules, of
the rule's consequent membership clipped at its firing strength. -/
theorem aggregated_eq_flat_max (b t x : ℚ) :
    aggregated b t x =
      (rules.map fun r => min (fireStrength r b t) (oMF r.out x)).foldr max 0 := by
  apply le_antisymm
  · refine foldr_max_le _ _ (foldr_max_nonneg _) ?_
    intro a ha
    obtain ⟨o, _ho, rfl⟩ := List.mem_map.mp ha
    have hcut : min (labelStrength o b t) (oMF o x) =
        (((rules.filter fun r => decide (r.out = o)).map fun r =>
          fireStrength r b t).map fun s => min s (oMF o x)).foldr max 0 :=
      min_foldr_max _ _ (oMF_nonneg o x)
    rw [hcut]
    refine foldr_max_le _ _ (foldr_max_nonneg _) ?_
    intro a ha2
    obtain ⟨s, hs, rfl⟩ := List.mem_map.mp ha2
    obtain ⟨r, hrf, rfl⟩ := List.mem_map.mp hs
    have hout : r.out = o := by
      have := (List.mem_filter.mp hrf).2
      simpa using this
    refine le_foldr_max _ _ ?_
    refine List.mem_map.mpr ⟨r, (List.mem_filter.mp hrf).1, ?_⟩
    rw [hout]
  · refine foldr_max_le _ _ (aggregated_nonneg b t x) ?_
    intro a ha
    obtain ⟨r, hr, rfl⟩ := List.mem_map.mp ha
    calc min (fireStrength r b t) (oMF r.out x)
        ≤ min (labelStrength r.out b t) (oMF r.out x) :=
          min_le_min (fireStrength_le_labelStrength r hr b t) (le_refl _)
      _ ≤ aggregated b t x :=
          le_foldr_max _ _ (List.mem_map.mpr ⟨r.out, mem_outLabels r.out, rfl⟩)

/-- C1: for every triangular membership function with control points
`(a, b, c)` (`a ≤ b ≤ c`, as every label of the engine satisfies) and
every `x`, the membership degree follows the claimed piecewise
definition: `0` if `x ≤ a` or `x ≥ c`, `(x-a)/(b-a)` if `a < x ≤ b`
(`1` when `a = b`), `(c-x)/(c-b)` if `b < x < c` (`1` when `b = c`) —
in particular the degenerate ramps `dark=[0,0,30]` and
`very_high=[90,100,100]` follow it. -/
theorem triDegree_matches_claimed_piecewise (a b c x : ℚ) (hab : a ≤ b) (hbc : b ≤ c) :
    triDegree a b c x = claimPiecewiseDegree a b c x := by
  rcases lt_trichotomy x b with hxb | rfl | hbx
  · rcases le_or_lt x a with hxa | hax
    · simp [triDegree, claimPiecewiseDegree, hxa, hxb.ne, not_lt.mpr hxa, not_lt.mpr hxb.le]
    · simp [triDegree, claimPiecewiseDegree, hax, hxb.le, hxb.ne, (lt_trans hax hxb).ne,
        not_lt.mpr hxb.le, not_le.mpr hax, not_le.mpr (lt_of_lt_of_le hxb hbc)]
  · rcases eq_or_lt_of_le hab with rfl | hab'
    · simp [triDegree, claimPiecewiseDegree]
    · rcases eq_or_lt_of_le hbc with rfl | hbc'
      · have hne : x - a ≠ 0 := sub_ne_zero.mpr hab'.ne'
        simp [triDegree, claimPiecewiseDegree, hab', hab'.ne, div_self hne]
      · simp [triDegree, claimPiecewiseDegree, hab', hab'.ne, hbc'.ne, not_le.mpr hab',
          not_le.mpr hbc']
  · rcases lt_or_le x c with hxc | hcx
    · simp [triDegree, claimPiecewiseDegree, hbx, hxc, hbx.ne', not_le.mpr hbx,
        not_le.mpr (lt_of_le_of_lt hab hbx), not_le.mpr hxc]
    · simp [triDegree, claimPiecewiseDegree, hbx.ne', not_le.mpr hbx, not_lt.mpr hcx, hcx]

theorem triDegree_matches_claimed_piecewise_holds_for_dark :
    triDegree 0 0 30 10 = claimPiecewiseDegree 0 0 30 10 ∧
      triDegree 90 100 100 95 = claimPiecewiseDegree 90 100 100 95 :=
  ⟨triDegree_matches_claimed_piecewise 0 0 30 10 (le_refl 0) (by norm_num),
   triDegree_matches_claimed_piecewise 90 100 100 95 (by norm_num) (le_refl 100)⟩

/-- C2: a rule's firing strength is the minimum of the membership degrees
of the `(variable, label)` pairs named in its antecedent conjunction
(fuzzy-AND = min): for a single-antecedent rule it is the brightness
label's degree itself, for a two-antecedent rule the binary minimum of the
brightness and time-of-day degrees. -/
theorem fireStrength_is_min_of_antecedent_degrees (r : FRule) (b t : ℚ) :
    fireStrength r b t =
      match r.tod with
      | none => bMF r.br b
      | some tl => min (bMF r.br b) (tMF tl t) :=
  fireStrength_eq_min r b t

/-- C3: the aggregated output membership at each point equals the
pointwise maximum over all rules of that rule's consequent membership
truncated at the rule's firing strength; in particular the two rules
concluding `very_high` (rule1 and rule5) contribute the maximum of their
clipped curves, never the sum. -/
theorem aggregated_is_max_of_clipped_consequents (b t x : ℚ) :
    aggregated b t x =
        (rules.map fun r => min (fireStrength r b t) (oMF r.out x)).foldr max 0 ∧
      min (labelStrength .very_high b t) (oMF .very_high x) =
        max (min (fireStrength rule1 b t) (oMF .very_high x))
          (min (fireStrength rule5 b t) (oMF .very_high x)) := by
  refine ⟨aggregated_eq_flat_max b t x, ?_⟩
  have h : labelStrength .very_high b t =
      max (fireStrength rule1 b t) (fireStrength rule5 b t) := by
    show max (fireStrength rule1 b t) (max (fireStrength rule5 b t) 0) = _
    rw [max_eq_left (fireStrength_nonneg rule5 b t)]
  rw [h, min_max_distrib_right]

theorem natCast_mem_outUniverse (n : ℕ) (h : n < 100) : ((n : ℚ)) ∈ outUniverse := by
  unfold outUniverse
  exact List.mem_map_of_mem _ (List.mem_range.mpr h)

theorem oMF_pos_point (o : IntensityLabel) : ∃ p ∈ outUniverse, 0 < oMF o p := by
  cases o
  · exact ⟨0, by exact_mod_cast natCast_mem_outUniverse 0 (by norm_num),
      by norm_num [oMF, triDegree]⟩
  · exact ⟨35, by exact_mod_cast natCast_mem_outUniverse 35 (by norm_num),
      by norm_num [oMF, triDegree]⟩
  · exact ⟨60, by exact_mod_cast natCast_mem_outUniverse 60 (by norm_num),
      by norm_num [oMF, triDegree]⟩
  · exact ⟨85, by exact_mod_cast natCast_mem_outUniverse 85 (by norm_num),
      by norm_num [oMF, triDegree]⟩
  · exact ⟨99, by exact_mod_cast natCast_mem_outUniverse 99 (by norm_num),
      by norm_num [oMF, triDegree]⟩

theorem clampWithFlag_fst (lo hi x : ℚ) :
    (clampWithFlag lo hi x).1 = if x < lo then lo else if hi < x then hi else x := by
  unfold clampWithFlag
  split_ifs <;> rfl

theorem clampWithFlag_snd (lo hi x : ℚ) :
    (clampWithFlag lo hi x).2 = (decide (x < lo) || decide (hi < x)) := by
  unfold clampWithFlag
  split_ifs with h1 h2
  · simp [h1]
  · simp [h1, h2]
  · simp [h1, h2]

theorem totalArea_pos_of_fired (b t : ℚ) (h : ∃ r ∈ rules, 0 < fireStrength r b t) :
    0 < totalArea b t := by
  obtain ⟨r, hr, hpos⟩ := h
  obtain ⟨p, hp, hmf⟩ := oMF_pos_point r.out
  have hls : 0 < labelStrength r.out b t :=
    lt_of_lt_of_le hpos (fireStrength_le_labelStrength r hr b t)
  have hagg : 0 < aggregated b t p :=
    lt_of_lt_of_le (lt_min hls hmf)
      (le_foldr_max _ _ (List.mem_map.mpr ⟨r.out, mem_outLabels r.out, rfl⟩))
  refine lt_of_lt_of_le hagg ?_
  exact List.single_le_sum
    (fun y hy => by
      obtain ⟨q, _, rfl⟩ := List.mem_map.mp hy
      exact aggregated_nonneg b t q)
    _ (List.mem_map.mpr ⟨p, hp, rfl⟩)

/-- C4: whenever at least one rule fires, the crisp output is the discrete
centroid `Σ(x_i · μ(x_i)) / Σ(μ(x_i))` of the aggregated output
membership over the output universe's sample points. -/
theorem compute_is_centroid_when_fired (bv tv : ℚ)
    (h : ∃ r ∈ rules, 0 < fireStrength r (validate_input bv tv).brightness
      (validate_input bv tv).time_of_day) :
    compute_light_intensity bv tv =
      some (moment (validate_input bv tv).brightness (validate_input bv tv).time_of_day /
        totalArea (validate_input bv tv).brightness (validate_input bv tv).time_of_day) := by
  have hpos := totalArea_pos_of_fired _ _ h
  show defuzz (validate_input bv tv).brightness (validate_input bv tv).time_of_day = _
  unfold defuzz
  rw [if_neg (ne_of_gt hpos)]

theorem compute_is_centroid_when_fired_witness :
    compute_light_intensity 10 3 =
      some (moment (validate_input 10 3).brightness (validate_input 10 3).time_of_day /
        totalArea (validate_input 10 3).brightness (validate_input 10 3).time_of_day) :=
  compute_is_centroid_when_fired 10 3
    ⟨rule1, by simp [rules],
      by norm_num [validate_input, clampWithFlag, config, fireStrength,
        antecedentDegrees, rule1, bMF, tMF, triDegree]⟩

/-- C5: evaluation returns no crisp value exactly when the aggregated
output membership is zero at every sample point of the output universe
(no rule fired); the failure is `none`, never a default numeric value. -/
theorem compute_none_iff_no_rule_fired (bv tv : ℚ) :
    compute_light_intensity bv tv = none ↔
      ∀ p ∈ outUniverse,
        aggregated (validate_input bv tv).brightness
          (validate_input bv tv).time_of_day p = 0 := by
  have hc : compute_light_intensity bv tv =
      defuzz (validate_input bv tv).brightness (validate_input bv tv).time_of_day := rfl
  rw [hc]
  unfold defuzz
  constructor
  · intro h p hp
    by_cases ht : totalArea (validate_input bv tv).brightness
        (validate_input bv tv).time_of_day = 0
    · refine List.all_zero_of_le_zero_le_of_sum_eq_zero ?_ ht
        (List.mem_map.mpr ⟨p, hp, rfl⟩)
      intro y hy
      obtain ⟨q, _, rfl⟩ := List.mem_map.mp hy
      exact aggregated_nonneg _ _ q
    · rw [if_neg ht] at h
      exact absurd h (Option.some_ne_none _)
  · intro h
    have ht : totalArea (validate_input bv tv).brightness
        (validate_input bv tv).time_of_day = 0 := by
      refine List.sum_eq_zero ?_
      intro y hy
      obtain ⟨q, hq, rfl⟩ := List.mem_map.mp hy
      exact h q hq
    rw [if_pos ht]

/-- C6: each crisp input outside its configured `[min, max]` bounds is
adjusted to the nearest bound with a warning-level adjustment event, an
in-range value passes through unchanged with no event, and evaluation
always proceeds on the validated values (a warning never aborts it); in
particular `brightness=105` passes unchanged with no warning while
`brightness=200` is clamped to `120` with the adjustment event. -/
theorem validate_input_clamps_and_warns (b t : ℚ) :
    (validate_input b t).brightness =
        (if b < config.brightness_range.1 then config.brightness_range.1
         else if config.brightness_range.2 < b then config.brightness_range.2 else b) ∧
      (validate_input b t).brightness_adjusted =
        (decide (b < config.brightness_range.1) ||
          decide (config.brightness_range.2 < b)) ∧
      (validate_input b t).time_of_day =
        (if t < config.time_of_day_range.1 then config.time_of_day_range.1
         else if config.time_of_day_range.2 < t then config.time_of_day_range.2 else t) ∧
      (validate_input b t).time_adjusted =
        (decide (t < config.time_of_day_range.1) ||
          decide (config.time_of_day_range.2 < t)) ∧
      compute_light_intensity b t =
        defuzz (validate_input b t).brightness (validate_input b t).time_of_day ∧
      (validate_input 105 12).brightness = 105 ∧
      (validate_input 105 12).brightness_adjusted = false ∧
      (validate_input 200 12).brightness = 120 ∧
      (validate_input 200 12).brightness_adjusted = true := by
  refine ⟨clampWithFlag_fst _ _ b, clampWithFlag_snd _ _ b,
    clampWithFlag_fst _ _ t, clampWithFlag_snd _ _ t, rfl, ?_, ?_, ?_, ?_⟩
  · norm_num [validate_input, clampWithFlag, config]
  · norm_num [validate_input, clampWithFlag, config]
  · norm_num [validate_input, clampWithFlag, config]
  · norm_num [validate_input, clampWithFlag, config]

/-- C7: evaluating with an input below the configured minimum gives the
same crisp result as evaluating with exactly the minimum, and symmetrically
for the maximum, the other input held fixed. -/
theorem compute_clamping_law (b t : ℚ) :
    (b < config.brightness_range.1 →
      compute_light_intensity b t = compute_light_intensity config.brightness_range.1 t) ∧
      (config.brightness_range.2 < b →
        compute_light_intensity b t = compute_light_intensity config.brightness_range.2 t) ∧
      (t < config.time_of_day_range.1 →
        compute_light_intensity b t = compute_light_intensity b config.time_of_day_range.1) ∧
      (config.time_of_day_range.2 < t →
        compute_light_intensity b t = compute_light_intensity b config.time_of_day_range.2) := by
  refine ⟨fun h => ?_, fun h => ?_, fun h => ?_, fun h => ?_⟩
  · have h' : b < 0 := by simpa [config] using h
    norm_num [compute_light_intensity, validate_input, clampWithFlag, config, h']
  · have h' : (120 : ℚ) < b := by simpa [config] using h
    have h0 : ¬b < 0 := by linarith
    norm_num [compute_light_intensity, validate_input, clampWithFlag, config, h', h0]
  · have h' : t < 0 := by simpa [config] using h
    norm_num [compute_light_intensity, validate_input, clampWithFlag, config, h']
  · have h' : (24 : ℚ) < t := by simpa [config] using h
    have h0 : ¬t < 0 := by linarith
    norm_num [compute_light_intensity, validate_input, clampWithFlag, config, h', h0]

/-- C8: evaluation is a pure function of the inputs: the result does not
depend on the simulation state left by earlier calls (both inputs are
reassigned before each compute), so calling twice with identical inputs on
an unmodified engine yields identical outputs. -/
theorem compute_pure_and_repeatable (s : SimState) (bv tv : ℚ) :
    (computeWithState s bv tv).1 = compute_light_intensity bv tv ∧
      (computeWithState (computeWithState s bv tv).2 bv tv).1 =
        (computeWithState s bv tv).1 :=
  ⟨rfl, rfl⟩

/-- C10: the public interface is total: for every pair of rational inputs
it returns either a crisp value (`some v`) or the failure value `none`;
no other outcome (in particular no propagated exception) is possible, and
a failed evaluation is observable only as `none`. -/
theorem compute_returns_value_or_none (bv tv : ℚ) :
    compute_light_intensity bv tv = none ∨
      ∃ v, compute_light_intensity bv tv = some v := by
  cases h : compute_light_intensity bv tv with
  | none => exact Or.inl rfl
  | some v => exact Or.inr ⟨v, rfl⟩

theorem labelStrengths_at_10_3 :
    labelStrength .very_low 10 3 = 0 ∧ labelStrength .low 10 3 = 0 ∧
      labelStrength .medium 10 3 = 0 ∧ labelStrength .high 10 3 = 0 ∧
      labelStrength .very_high 10 3 = 2/3 := by
  refine ⟨?_, ?_, ?_, ?_, ?_⟩
  · show max (fireStrength rule8 10 3) (max (fireStrength rule9 10 3)
      (max (fireStrength rule13 10 3) (max (fireStrength rule14 10 3) 0))) = 0
    norm_num [fireStrength, antecedentDegrees, rule8, rule9, rule13, rule14, bMF, tMF,
      triDegree]
  · show max (fireStrength rule4 10 3) (max (fireStrength rule12 10 3) 0) = 0
    norm_num [fireStrength, antecedentDegrees, rule4, rule12, bMF, tMF, triDegree]
  · show max (fireStrength rule3 10 3) (max (fireStrength rule7 10 3)
      (max (fireStrength rule11 10 3) 0)) = 0
    norm_num [fireStrength, antecedentDegrees, rule3, rule7, rule11, bMF, tMF, triDegree]
  · show max (fireStrength rule2 10 3) (max (fireStrength rule6 10 3)
      (max (fireStrength rule10 10 3) 0)) = 0
    norm_num [fireStrength, antecedentDegrees, rule2, rule6, rule10, bMF, tMF, triDegree]
  · show max (fireStrength rule1 10 3) (max (fireStrength rule5 10 3) 0) = 2/3
    norm_num [fireStrength, antecedentDegrees, rule1, rule5, bMF, tMF, triDegree]

theorem aggregated_at_10_3 (x : ℚ) :
    aggregated 10 3 x = min (2/3) (oMF .very_high x) := by
  obtain ⟨h1, h2, h3, h4, h5⟩ := labelStrengths_at_10_3
  show max (min (labelStrength .very_low 10 3) (oMF .very_low x))
    (max (min (labelStrength .low 10 3) (oMF .low x))
      (max (min (labelStrength .medium 10 3) (oMF .medium x))
        (max (min (labelStrength .high 10 3) (oMF .high x))
          (max (min (labelStrength .very_high 10 3) (oMF .very_high x)) 0)))) = _
  rw [h1, h2, h3, h4, h5]
  rw [min_eq_left (oMF_nonneg _ x), min_eq_left (oMF_nonneg _ x),
    min_eq_left (oMF_nonneg _ x), min_eq_left (oMF_nonneg _ x)]
  have hm : 0 ≤ min (2/3 : ℚ) (oMF .very_high x) :=
    le_min (by norm_num) (oMF_nonneg _ x)
  rw [max_eq_left hm, max_eq_right hm, max_eq_right hm, max_eq_right hm, max_eq_right hm]

set_option maxHeartbeats 4000000 in
theorem totalArea_at_10_3 : totalArea 10 3 = 41/10 := by
  unfold totalArea
  rw [List.map_congr_left (fun x _ => aggregated_at_10_3 x)]
  norm_num [outUniverse, List.range_succ, oMF, triDegree]

set_option maxHeartbeats 4000000 in
theorem moment_at_10_3 : moment 10 3 = 3941/10 := by
  unfold moment
  rw [List.map_congr_left (fun x _ => by rw [aggregated_at_10_3 x])]
  norm_num [outUniverse, List.range_succ, oMF, triDegree]

set_option maxHeartbeats 8000000 in
theorem labelCentroid_very_high : labelCentroid .very_high = 289/3 := by
  unfold labelCentroid
  norm_num [outUniverse, List.range_succ, oMF, triDegree]

theorem validate_input_10_3 : validate_input 10 3 = ⟨10, 3, false, false⟩ := by
  norm_num [validate_input, clampWithFlag, config]

theorem compute_at_10_3 : compute_light_intensity 10 3 = some (3941/41) := by
  have hc : compute_light_intensity 10 3 =
      defuzz (validate_input 10 3).brightness (validate_input 10 3).time_of_day := rfl
  rw [hc, validate_input_10_3]
  show defuzz 10 3 = _
  unfold defuzz
  rw [totalArea_at_10_3, moment_at_10_3]
  norm_num

/-- C9: in the example configuration, evaluating with brightness 10 and
time-of-day 3 gives `dark` degree `(30-10)/30 = 2/3`, `night` degree `1`,
firing strength `min(2/3, 1) = 2/3` for the rule "dark AND night", and a
crisp output strictly between `0` and the centroid of the `very_high`
label alone. -/
theorem example_scenario_brightness10_time3 :
    bMF .dark 10 = (30 - 10) / 30 ∧
      tMF .night 3 = 1 ∧
      fireStrength rule1 10 3 = min ((30 - 10) / 30) 1 ∧
      ∃ v, compute_light_intensity 10 3 = some v ∧ 0 < v ∧
        v < labelCentroid .very_high := by
  refine ⟨by norm_num [bMF, triDegree], by norm_num [tMF, triDegree], ?_,
    3941/41, compute_at_10_3, by norm_num, ?_⟩
  · norm_num [fireStrength, antecedentDegrees, rule1, bMF, tMF, triDegree]
  · rw [labelCentroid_very_high]
    norm_num

theorem labelStrengths_at_20_0 (o : IntensityLabel) : labelStrength o 20 0 = 0 := by
  cases o
  · show max (fireStrength rule8 20 0) (max (fireStrength rule9 20 0)
      (max (fireStrength rule13 20 0) (max (fireStrength rule14 20 0) 0))) = 0
    norm_num [fireStrength, antecedentDegrees, rule8, rule9, rule13, rule14, bMF, tMF,
      triDegree]
  · show max (fireStrength rule4 20 0) (max (fireStrength rule12 20 0) 0) = 0
    norm_num [fireStrength, antecedentDegrees, rule4, rule12, bMF, tMF, triDegree]
  · show max (fireStrength rule3 20 0) (max (fireStrength rule7 20 0)
      (max (fireStrength rule11 20 0) 0)) = 0
    norm_num [fireStrength, antecedentDegrees, rule3, rule7, rule11, bMF, tMF, triDegree]
  · show max (fireStrength rule2 20 0) (max (fireStrength rule6 20 0)
      (max (fireStrength rule10 20 0) 0)) = 0
    norm_num [fireStrength, antecedentDegrees, rule2, rule6, rule10, bMF, tMF, triDegree]
  · show max (fireStrength rule1 20 0) (max (fireStrength rule5 20 0) 0) = 0
    norm_num [fireStrength, antecedentDegrees, rule1, rule5, bMF, tMF, triDegree]

theorem aggregated_at_20_0 (x : ℚ) : aggregated 20 0 x = 0 := by
  show max (min (labelStrength .very_low 20 0) (oMF .very_low x))
    (max (min (labelStrength .low 20 0) (oMF .low x))
      (max (min (labelStrength .medium 20 0) (oMF .medium x))
        (max (min (labelStrength .high 20 0) (oMF .high x))
          (max (min (labelStrength .very_high 20 0) (oMF .very_high x)) 0)))) = 0
  rw [labelStrengths_at_20_0, labelStrengths_at_20_0, labelStrengths_at_20_0,
    labelStrengths_at_20_0, labelStrengths_at_20_0]
  rw [min_eq_left (oMF_nonneg _ x), min_eq_left (oMF_nonneg _ x),
    min_eq_left (oMF_nonneg _ x), min_eq_left (oMF_nonneg _ x),
    min_eq_left (oMF_nonneg _ x)]
  norm_num

theorem validate_input_20_0 : validate_input 20 0 = ⟨20, 0, false, false⟩ := by
  norm_num [validate_input, clampWithFlag, config]

theorem compute_none_at_no_fire_input : compute_light_intensity 20 0 = none := by
  refine (compute_none_iff_no_rule_fired 20 0).mpr ?_
  intro p hp
  rw [validate_input_20_0]
  exact aggregated_at_20_0 p

end HW2Fuzzy
